import Mathlib

/-!
Shallow embedding of the Netpbm PBM/PGM codec (Go sources `pbm.go` and the
companion PGM file) and proofs about its claims.

Modelling conventions:
- Go strings and file contents are byte lists (`List Nat`); all inputs of
  interest are ASCII, so `for i, c := range s` (rune iteration) coincides
  with byte iteration on the inputs considered.
- A `bufio.Scanner` with the default `ScanLines` split is modelled by
  pre-splitting the input into lines (`splitLines`); a `Scan` past the end
  of input leaves `Text() = ""`, modelled by `lineAt` defaulting to `[]`.
- Go `int` is `Int`; `uint8` values are `Nat` together with a `< 256`
  well-formedness invariant; conversions `uint8(x)` use `Int.emod 256`.
- A function that can panic (index out of range, `make` with negative
  size) returns `Option`; at the top level `GoResult` distinguishes a
  normal return (`ok`), an error return (`err`) and a runtime panic
  (`crash`).  File-system failures are not modelled: reads and writes are
  given the full byte stream.
-/

/-- ASCII bytes of a Lean string literal (all inputs used are ASCII). -/
def bytesOf (s : String) : List Nat := s.data.map (fun c => c.toNat)

/-- Go `bufio.ScanLines` drops one trailing carriage return from a line. -/
def dropCR (l : List Nat) : List Nat :=
  if l.getLast? = some 13 then l.dropLast else l

/-- Accumulator-based splitting of a byte stream into scanner lines. -/
def splitLinesAux : List Nat → List Nat → List (List Nat)
  | [], acc => if acc = [] then [] else [dropCR acc.reverse]
  | 10 :: rest, acc => dropCR acc.reverse :: splitLinesAux rest []
  | b :: rest, acc => splitLinesAux rest (b :: acc)

/-- The sequence of tokens produced by a `bufio.Scanner` with `ScanLines`:
split at newlines, no token for a trailing newline, `"\r\n"` collapsed. -/
def splitLines (input : List Nat) : List (List Nat) := splitLinesAux input []

/-- The `k`-th scanner line; past the end of input `Text()` returns `""`. -/
def lineAt (lines : List (List Nat)) (k : Nat) : List Nat := lines.getD k []

/-- ASCII whitespace recognised by Go `strings.Fields` (ASCII range). -/
def isSpaceByte (b : Nat) : Bool := b == 32 || (9 ≤ b && b ≤ 13)

/-- Accumulator-based splitting into whitespace-separated fields. -/
def fieldsAux : List Nat → List Nat → List (List Nat)
  | [], acc => if acc = [] then [] else [acc.reverse]
  | b :: rest, acc =>
    if isSpaceByte b then
      if acc = [] then fieldsAux rest [] else acc.reverse :: fieldsAux rest []
    else fieldsAux rest (b :: acc)

/-- Go `strings.Fields`: split around runs of whitespace, no empty fields. -/
def fields (l : List Nat) : List (List Nat) := fieldsAux l []

/-- Value of a nonempty all-digit byte string, `none` otherwise. -/
def digitsToNat : List Nat → Option Nat
  | [] => none
  | l =>
    if l.all (fun b => 48 ≤ b && b ≤ 57) then
      some (l.foldl (fun acc b => acc * 10 + (b - 48)) 0)
    else none

/-- Go `strconv.Atoi`: optional sign then a nonempty digit string
(model ignores the `int64` range limit, irrelevant for the inputs used). -/
def atoi (l : List Nat) : Option Int :=
  match l with
  | 43 :: rest => (digitsToNat rest).map (fun n => (n : Int))
  | 45 :: rest => (digitsToNat rest).map (fun n => -(n : Int))
  | _ => (digitsToNat l).map (fun n => (n : Int))

/-- Outcome of a Go function call: normal value, error return, or panic. -/
inductive GoResult (α : Type) where
  | ok (val : α)
  | err (msg : String)
  | crash
deriving DecidableEq

/-- Whether a `GoResult` is a normal (non-error, non-panic) return. -/
def GoResult.isOk {α : Type} : GoResult α → Bool
  | .ok _ => true
  | _ => false

/-- The Go `PBM` struct: bitmap pixel grid plus metadata. -/
structure PBM where
  data : List (List Bool)
  width : Int
  height : Int
  magicNumber : List Nat
deriving DecidableEq

/-- The Go `PGM` struct: grayscale pixel grid plus metadata. -/
structure PGM where
  data : List (List Nat)
  width : Int
  height : Int
  magicNumber : List Nat
  max : Int
deriving DecidableEq

/-- Bytes of the magic number `"P1"`. -/
def bP1 : List Nat := [80, 49]

/-- Bytes of the magic number `"P2"`. -/
def bP2 : List Nat := [80, 50]

/-- Bytes of the magic number `"P4"`. -/
def bP4 : List Nat := [80, 52]

/-- Bytes of the magic number `"P5"`. -/
def bP5 : List Nat := [80, 53]

def errMagicPBM : String := "Invalid PBM magic number"

def errDims : String := "Invalid dimensions"

def errWidth : String := "Invalid width"

def errHeight : String := "Invalid height"

def errMagicPGM : String := "Unsupported PGM format"

/-- Loop body of `parseP1Line`: `for i, char := range line { data[i] = char == '1' }`;
writing at `i ≥ len(data)` is an index-out-of-range panic (`none`). -/
def p1Loop : List Nat → Nat → List Bool → Option (List Bool)
  | [], _, data => some data
  | b :: rest, i, data =>
    if i < data.length then p1Loop rest (i + 1) (data.set i (b == 49)) else none

/-- Go `parseP1Line`: allocate `make([]bool, width)` (panic when negative),
then set one entry per byte of the line. -/
def parseP1Line (line : List Nat) (width : Int) : Option (List Bool) :=
  if width < 0 then none
  else p1Loop line 0 (List.replicate width.toNat false)

/-- Go `parseP4Line`: one packed row, most-significant bit first; a row
shorter than `(width+7)/8` bytes yields the `nil` row (modelled `[]`). -/
def parseP4Line (line : List Nat) (width : Int) : Option (List Bool) :=
  if width < 0 then none
  else if line.length < (width.toNat + 7) / 8 then some []
  else some ((List.range width.toNat).map (fun i =>
    (((line.getD (i / 8) 0) >>> (7 - i % 8)) &&& 1) == 1))

/-- Go `ReadPBM` on the full byte contents of the file. -/
def ReadPBM (input : List Nat) : GoResult PBM :=
  let lines := splitLines input
  let magic := lineAt lines 0
  if magic ≠ bP1 ∧ magic ≠ bP4 then .err errMagicPBM
  else
    let dims := fields (lineAt lines 1)
    if dims.length ≠ 2 then .err errDims
    else
      match atoi (dims.getD 0 []) with
      | none => .err errWidth
      | some width =>
        match atoi (dims.getD 1 []) with
        | none => .err errHeight
        | some height =>
          if height < 0 then .crash
          else
            match (List.range height.toNat).mapM (fun i =>
                if magic = bP1 then parseP1Line (lineAt lines (2 + i)) width
                else parseP4Line (lineAt lines (2 + i)) width) with
            | none => .crash
            | some data => .ok ⟨data, width, height, magic⟩

/-- Go `ReadPGM` on the full byte contents of the file.  Header parse
errors are discarded (`val, _ := strconv.Atoi(...)`), an absent dimension
token is an index-out-of-range panic, and each pixel is read with one
`scanner.Scan()`, i.e. one line per pixel. -/
def ReadPGM (input : List Nat) : GoResult PGM :=
  let lines := splitLines input
  let magic := lineAt lines 0
  if magic ≠ bP2 ∧ magic ≠ bP5 then .err errMagicPGM
  else
    let dims := fields (lineAt lines 1)
    if dims.length < 2 then .crash
    else
      let width := (atoi (dims.getD 0 [])).getD 0
      let height := (atoi (dims.getD 1 [])).getD 0
      let maxVal := (atoi (lineAt lines 2)).getD 0
      if height < 0 then .crash
      else if width < 0 ∧ 0 < height.toNat then .crash
      else .ok ⟨(List.range height.toNat).map (fun i =>
          (List.range width.toNat).map (fun j =>
            (((atoi (lineAt lines (3 + i * width.toNat + j))).getD 0).emod 256).toNat)),
        width, height, magic, maxVal⟩

/-- Entry `(i, j)` of a pixel grid (`data[i][j]`), with a default for the
out-of-range accesses that the well-formedness invariant rules out. -/
def gridAt {α : Type} (d : List (List α)) (d₀ : α) (i j : Nat) : α :=
  (d.getD i []).getD j d₀

/-- Go `At(x, y)` on a grayscale image: `pgm.data[y][x]`. -/
def PGM.At (pgm : PGM) (x y : Nat) : Nat := gridAt pgm.data 0 y x

/-- Go `At(x, y)` on a bitmap image: `pbm.data[y][x]`. -/
def PBM.At (pbm : PBM) (x y : Nat) : Bool := gridAt pbm.data false y x

/-- Go parallel swap `l[i], l[j] = l[j], l[i]`: both reads happen before
both writes. -/
def swapIdx {α : Type} (l : List α) (i j : Nat) (d : α) : List α :=
  (l.set i (l.getD j d)).set j (l.getD i d)

/-- The loop `for y := 0; y < n; y++ { l[y] = f(y, l[y]) }`. -/
def setEach {α : Type} (n : Nat) (d : α) (f : Nat → α → α) (l : List α) : List α :=
  (List.range n).foldl (fun acc y => acc.set y (f y (acc.getD y d))) l

/-- First `k` iterations of the swap loop of `Flip`/`Flop`. -/
def revSwapsAux {α : Type} (k n : Nat) (d : α) (l : List α) : List α :=
  (List.range k).foldl (fun acc x => swapIdx acc x (n - x - 1) d) l

/-- The loop `for x := 0; x < n/2; x++ { l[x], l[n-x-1] = l[n-x-1], l[x] }`
shared by `Flip` (on a row) and `Flop` (on the list of rows). -/
def revSwaps {α : Type} (n : Nat) (d : α) (l : List α) : List α :=
  revSwapsAux (n / 2) n d l

/-- Dimensional well-formedness of a bitmap image (§3 data-model
invariant); Go slices force the dimensions to be non-negative. -/
def PBM.Wf (pbm : PBM) : Prop :=
  0 ≤ pbm.width ∧ 0 ≤ pbm.height ∧ pbm.data.length = pbm.height.toNat ∧
  ∀ row ∈ pbm.data, row.length = pbm.width.toNat

/-- Dimensional well-formedness of a grayscale image, plus the structural
`uint8` bound on each pixel. -/
def PGM.Wf (pgm : PGM) : Prop :=
  0 ≤ pgm.width ∧ 0 ≤ pgm.height ∧ pgm.data.length = pgm.height.toNat ∧
  (∀ row ∈ pgm.data, row.length = pgm.width.toNat) ∧
  ∀ row ∈ pgm.data, ∀ p ∈ row, p < 256

instance decidablePBMWf (pbm : PBM) : Decidable pbm.Wf := by
  unfold PBM.Wf
  infer_instance

instance decidablePGMWf (pgm : PGM) : Decidable pgm.Wf := by
  unfold PGM.Wf
  infer_instance

/-- Go `PBM.Invert`: pointwise boolean complement over the index ranges. -/
def PBM.Invert (pbm : PBM) : PBM :=
  { pbm with data := setEach pbm.height.toNat [] (fun _ row =>
      setEach pbm.width.toNat false (fun _ p => !p) row) pbm.data }

/-- Go `PBM.Flip`: per row, swap columns `x` and `width-x-1` for
`x < width/2`. -/
def PBM.Flip (pbm : PBM) : PBM :=
  { pbm with data := setEach pbm.height.toNat [] (fun _ row =>
      revSwaps pbm.width.toNat false row) pbm.data }

/-- Go `PBM.Flop`: swap rows `y` and `height-y-1` for `y < height/2`. -/
def PBM.Flop (pbm : PBM) : PBM :=
  { pbm with data := revSwaps pbm.height.toNat [] pbm.data }

/-- Go `uint8(pgm.max) - p` in `uint8` arithmetic, for a pixel `p < 256`:
`(max mod 256 - p) mod 256` with a mathematical (non-negative) modulus. -/
def invertPix (maxv : Int) (p : Nat) : Nat :=
  ((maxv.emod 256 - (p : Int)).emod 256).toNat

/-- Go `PGM.Invert`: `data[i][j] = uint8(pgm.max) - data[i][j]`. -/
def PGM.Invert (pgm : PGM) : PGM :=
  { pgm with data := setEach pgm.height.toNat [] (fun _ row =>
      setEach pgm.width.toNat 0 (fun _ p => invertPix pgm.max p) row) pgm.data }

/-- Go `PGM.Flip` (same swap loop as the bitmap version). -/
def PGM.Flip (pgm : PGM) : PGM :=
  { pgm with data := setEach pgm.height.toNat [] (fun _ row =>
      revSwaps pgm.width.toNat 0 row) pgm.data }

/-- Go `PGM.Flop` (same swap loop as the bitmap version). -/
def PGM.Flop (pgm : PGM) : PGM :=
  { pgm with data := revSwaps pgm.height.toNat [] pgm.data }

/-- Go `PGM.Rotate90CW`: `newData[i][j] = pgm.data[pgm.height-j-1][i]` on a
fresh `width × height` grid, then swap the stored dimensions. -/
def PGM.Rotate90CW (pgm : PGM) : PGM :=
  { pgm with
    data := (List.range pgm.width.toNat).map (fun i =>
      (List.range pgm.height.toNat).map (fun j =>
        gridAt pgm.data 0 (pgm.height.toNat - j - 1) i)),
    width := pgm.height,
    height := pgm.width }

/-- Go `uint8(x)` on an `int`: the low 8 bits. -/
def uint8OfInt (x : Int) : Nat := (x.emod 256).toNat

/-- Go `PGM.ToPBM`: threshold `pgm.data[i][j] > uint8(pgm.max)/2`, fixed
magic number `"P1"`, same dimensions. -/
def PGM.ToPBM (pgm : PGM) : PBM :=
  { data := (List.range pgm.height.toNat).map (fun i =>
      (List.range pgm.width.toNat).map (fun j =>
        decide (uint8OfInt pgm.max / 2 < gridAt pgm.data 0 i j))),
    width := pgm.width,
    height := pgm.height,
    magicNumber := bP1 }

/-- Decimal digit bytes of a positive number, fuel-driven so that the
kernel can evaluate it. -/
def natDigitsAux : Nat → Nat → List Nat
  | _, 0 => []
  | 0, _ + 1 => []
  | fuel + 1, n + 1 => natDigitsAux fuel ((n + 1) / 10) ++ [(n + 1) % 10 + 48]

/-- ASCII decimal rendering of a `Nat` (Go `%d` on a non-negative value). -/
def natBytes (n : Nat) : List Nat :=
  if n = 0 then [48] else natDigitsAux n n

/-- ASCII decimal rendering of an `Int` (Go `%d`). -/
def intBytes (i : Int) : List Nat :=
  if i < 0 then 45 :: natBytes i.natAbs else natBytes i.toNat

/-- Go `PGM.Save`, as the byte stream written: the three header lines
(magic, `"width height"`, max value) then — for every magic number, the
code has no binary branch — one decimal token per pixel, each on its own
line. -/
def PGM.Save (pgm : PGM) : List Nat :=
  pgm.magicNumber ++ 10 :: intBytes pgm.width ++ 32 :: intBytes pgm.height ++ 10 ::
    intBytes pgm.max ++ 10 ::
    (List.range pgm.height.toNat).flatMap (fun i =>
      (List.range pgm.width.toNat).flatMap (fun j =>
        natBytes (gridAt pgm.data 0 i j) ++ [10]))

/-- Go `PBM.Save`, as the byte stream written: the two header lines, then
per row the pixels (`"1 "`/`"0 "` for `P1`, a raw `0xFF`/`0x00` byte
otherwise) followed by a newline byte. -/
def PBM.Save (pbm : PBM) : List Nat :=
  pbm.magicNumber ++ 10 :: intBytes pbm.width ++ 32 :: intBytes pbm.height ++ 10 ::
    pbm.data.flatMap (fun row =>
      row.flatMap (fun pixel =>
        if pbm.magicNumber = bP1 then (if pixel then [49, 32] else [48, 32])
        else (if pixel then [255] else [0]))
      ++ [10])

example : splitLines (bytesOf ("P1\n2 2\n1 0\n0 1\n")) =
    [[80, 49], [50, 32, 50], [49, 32, 48], [48, 32, 49]] := by decide

example : ReadPBM (bytesOf ("P1\n2 2\n1 0\n0 1\n")) = .crash := by decide

example : ReadPBM (bytesOf ("P1\n2 2\n10\n01\n")) =
    .ok ⟨[[true, false], [false, true]], 2, 2, bP1⟩ := by decide

example : ReadPGM (bytesOf ("P2\n2 2\n255\n1\n2\n3\n")) =
    .ok ⟨[[1, 2], [3, 0]], 2, 2, bP2, 255⟩ := by decide

example : ReadPGM (bytesOf ("P2\nabc def\n255\n")) =
    .ok ⟨[], 0, 0, bP2, 255⟩ := by decide

example : ReadPGM (bytesOf ("P2\n5\n255\n")) = .crash := by decide

example : parseP4Line [176] 8 =
    some [true, false, true, true, false, false, false, false] := by decide

example : PGM.Save ⟨[[200]], 1, 1, bP5, 255⟩ =
    bytesOf ("P5\n1 1\n255\n200\n") := by decide

example : PBM.Save ⟨[[true]], 1, 1, bP4⟩ = bytesOf ("P4\n1 1\n") ++ [255, 10] := by decide

example : PGM.Rotate90CW ⟨[[1, 2], [3, 4]], 2, 2, bP2, 255⟩ =
    ⟨[[3, 1], [4, 2]], 2, 2, bP2, 255⟩ := by decide

example :
    PGM.Rotate90CW (PGM.Rotate90CW (PGM.Rotate90CW (PGM.Rotate90CW
      ⟨[[1, 2, 3], [4, 5, 6]], 3, 2, bP2, 255⟩))) =
    ⟨[[1, 2, 3], [4, 5, 6]], 3, 2, bP2, 255⟩ := by decide

example : PGM.Flip ⟨[[1, 2, 3]], 3, 1, bP2, 255⟩ = ⟨[[3, 2, 1]], 3, 1, bP2, 255⟩ := by
  decide

example : PGM.Flop ⟨[[1], [2], [3]], 1, 3, bP2, 255⟩ =
    ⟨[[3], [2], [1]], 1, 3, bP2, 255⟩ := by decide

example : PGM.Invert ⟨[[10, 20, 30]], 3, 1, bP2, 255⟩ =
    ⟨[[245, 235, 225]], 3, 1, bP2, 255⟩ := by decide

example : PGM.ToPBM ⟨[[100, 128], [127, 0]], 2, 2, bP5, 255⟩ =
    ⟨[[false, true], [false, false]], 2, 2, bP1⟩ := by decide

example : invertPix 100 200 = 156 := by decide

theorem list_ext_getD {α : Type} (d₀ : α) (l l' : List α) (hlen : l.length = l'.length)
    (h : ∀ k, k < l.length → l.getD k d₀ = l'.getD k d₀) : l = l' := by
  apply List.ext_getElem?
  intro n
  by_cases hn : n < l.length
  · have hn' : n < l'.length := hlen ▸ hn
    have hd := h n hn
    rw [List.getD_eq_getElem?_getD, List.getD_eq_getElem?_getD,
      List.getElem?_eq_getElem hn, List.getElem?_eq_getElem hn'] at hd
    rw [List.getElem?_eq_getElem hn, List.getElem?_eq_getElem hn']
    simpa using hd
  · rw [List.getElem?_eq_none (by omega), List.getElem?_eq_none (by omega)]

theorem getD_range_map {α : Type} (f : Nat → α) (n i : Nat) (d : α) (h : i < n) :
    ((List.range n).map f).getD i d = f i := by
  rw [List.getD_eq_getElem?_getD]
  simp [List.getElem?_map, List.getElem?_range, h]

theorem getD_of_ge {α : Type} (l : List α) (i : Nat) (d : α) (h : l.length ≤ i) :
    l.getD i d = d := by
  rw [List.getD_eq_getElem?_getD, List.getElem?_eq_none h]
  rfl

theorem getD_set_self {α : Type} (l : List α) (i : Nat) (a d : α) (h : i < l.length) :
    (l.set i a).getD i d = a := by
  rw [List.getD_eq_getElem?_getD, List.getElem?_set_self (by omega)]
  rfl

theorem getD_set_ne {α : Type} (l : List α) (i k : Nat) (a d : α) (h : i ≠ k) :
    (l.set i a).getD k d = l.getD k d := by
  rw [List.getD_eq_getElem?_getD, List.getD_eq_getElem?_getD, List.getElem?_set_ne h]

theorem length_swapIdx {α : Type} (l : List α) (i j : Nat) (d : α) :
    (swapIdx l i j d).length = l.length := by
  simp [swapIdx]

theorem getD_swapIdx_fst {α : Type} (l : List α) (i j : Nat) (d : α)
    (hi : i < l.length) (hij : i ≠ j) :
    (swapIdx l i j d).getD i d = l.getD j d := by
  rw [swapIdx, getD_set_ne _ _ _ _ _ (Ne.symm hij), getD_set_self _ _ _ _ hi]

theorem getD_swapIdx_snd {α : Type} (l : List α) (i j : Nat) (d : α)
    (hj : j < l.length) :
    (swapIdx l i j d).getD j d = l.getD i d := by
  rw [swapIdx, getD_set_self]
  simpa using hj

theorem getD_swapIdx_other {α : Type} (l : List α) (i j k : Nat) (d : α)
    (hik : i ≠ k) (hjk : j ≠ k) :
    (swapIdx l i j d).getD k d = l.getD k d := by
  rw [swapIdx, getD_set_ne _ _ _ _ _ hjk, getD_set_ne _ _ _ _ _ hik]

theorem setEach_succ {α : Type} (m : Nat) (d : α) (f : Nat → α → α) (l : List α) :
    setEach (m + 1) d f l =
      (setEach m d f l).set m (f m ((setEach m d f l).getD m d)) := by
  rw [setEach, setEach, List.range_succ, List.foldl_append]
  rfl

theorem length_setEach {α : Type} (n : Nat) (d : α) (f : Nat → α → α) (l : List α) :
    (setEach n d f l).length = l.length := by
  induction n with
  | zero => rfl
  | succ m ih => rw [setEach_succ, List.length_set, ih]

theorem getD_setEach {α : Type} (n : Nat) (d : α) (f : Nat → α → α) (l : List α)
    (k : Nat) :
    (setEach n d f l).getD k d =
      if k < n ∧ k < l.length then f k (l.getD k d) else l.getD k d := by
  induction n with
  | zero => simp [setEach, revSwapsAux]
  | succ m ih =>
    rw [setEach_succ]
    have hlen : (setEach m d f l).length = l.length := length_setEach m d f l
    by_cases hkm : k = m
    · subst hkm
      by_cases hk : k < l.length
      · rw [getD_set_self _ _ _ _ (by omega), ih]
        simp [hk]
      · rw [getD_of_ge _ _ _ (by rw [List.length_set]; omega), getD_of_ge _ _ _ (by omega)]
        simp [hk]
    · rw [getD_set_ne _ _ _ _ _ (Ne.symm hkm), ih]
      by_cases hk : k < m
      · simp [hk, Nat.lt_succ_of_lt hk]
      · have hk1 : ¬ k < m + 1 := by omega
        simp [hk, hk1]

theorem revSwapsAux_succ {α : Type} (k n : Nat) (d : α) (l : List α) :
    revSwapsAux (k + 1) n d l = swapIdx (revSwapsAux k n d l) k (n - k - 1) d := by
  rw [revSwapsAux, revSwapsAux, List.range_succ, List.foldl_append]
  rfl

theorem length_revSwapsAux {α : Type} (k n : Nat) (d : α) (l : List α) :
    (revSwapsAux k n d l).length = l.length := by
  induction k with
  | zero => rfl
  | succ m ih => rw [revSwapsAux_succ, length_swapIdx, ih]

theorem getD_revSwapsAux {α : Type} (k n : Nat) (d : α) (l : List α)
    (hl : l.length = n) : k ≤ n / 2 → ∀ x, x < n →
    (revSwapsAux k n d l).getD x d =
      if x < k ∨ n - x - 1 < k then l.getD (n - x - 1) d else l.getD x d := by
  induction k with
  | zero =>
    intro _ x _
    simp [revSwapsAux]
  | succ m ih =>
    intro hk x hx
    have hm : m ≤ n / 2 := by omega
    have hmlt : m < n - m - 1 := by omega
    have hlen : (revSwapsAux m n d l).length = l.length := length_revSwapsAux m n d l
    rw [revSwapsAux_succ]
    by_cases hxm : x = m
    · subst hxm
      rw [getD_swapIdx_fst _ _ _ _ (by omega) (by omega), ih hm (n - x - 1) (by omega)]
      have h1 : ¬ (n - x - 1 < x ∨ n - (n - x - 1) - 1 < x) := by omega
      rw [if_neg h1, if_pos (by omega : x < x + 1 ∨ n - x - 1 < x + 1)]
    · by_cases hxs : x = n - m - 1
      · subst hxs
        rw [getD_swapIdx_snd _ _ _ _ (by omega), ih hm m (by omega)]
        have h1 : ¬ (m < m ∨ n - m - 1 < m) := by omega
        rw [if_neg h1, if_pos (by omega : n - m - 1 < m + 1 ∨ n - (n - m - 1) - 1 < m + 1)]
        have h2 : n - (n - m - 1) - 1 = m := by omega
        rw [h2]
      · rw [getD_swapIdx_other _ _ _ _ _ (by omega) (by omega), ih hm x hx]
        by_cases hc : x < m ∨ n - x - 1 < m
        · rw [if_pos hc, if_pos (by omega : x < m + 1 ∨ n - x - 1 < m + 1)]
        · have hc' : ¬ (x < m + 1 ∨ n - x - 1 < m + 1) := by omega
          rw [if_neg hc, if_neg hc']

theorem length_revSwaps {α : Type} (n : Nat) (d : α) (l : List α) :
    (revSwaps n d l).length = l.length :=
  length_revSwapsAux (n / 2) n d l

theorem getD_revSwaps {α : Type} (n : Nat) (d : α) (l : List α)
    (hl : l.length = n) (x : Nat) (hx : x < n) :
    (revSwaps n d l).getD x d = l.getD (n - x - 1) d := by
  rw [revSwaps, getD_revSwapsAux (n / 2) n d l hl (Nat.le_refl _) x hx]
  by_cases hc : x < n / 2 ∨ n - x - 1 < n / 2
  · rw [if_pos hc]
  · rw [if_neg hc]
    have hmid : x = n - x - 1 := by omega
    rw [← hmid]

theorem getD_mem {α : Type} (l : List α) (k : Nat) (d : α) (h : k < l.length) :
    l.getD k d ∈ l := by
  rw [List.getD_eq_getElem?_getD, List.getElem?_eq_getElem h]
  exact List.getElem_mem h

theorem setEach_involutive {α : Type} (n : Nat) (d : α) (f : α → α) (l : List α)
    (hlen : l.length = n) (hf : ∀ a ∈ l, f (f a) = a) :
    setEach n d (fun _ a => f a) (setEach n d (fun _ a => f a) l) = l := by
  have h1 : (setEach n d (fun _ a => f a) l).length = l.length := length_setEach _ _ _ _
  apply list_ext_getD d
  · rw [length_setEach, length_setEach]
  · intro k hk
    rw [length_setEach, length_setEach] at hk
    rw [getD_setEach, if_pos ⟨by omega, by omega⟩, getD_setEach,
      if_pos ⟨by omega, by omega⟩]
    exact hf _ (getD_mem l k d (by omega))

theorem revSwaps_revSwaps {α : Type} (n : Nat) (d : α) (l : List α)
    (hl : l.length = n) : revSwaps n d (revSwaps n d l) = l := by
  have h1 : (revSwaps n d l).length = n := by rw [length_revSwaps, hl]
  apply list_ext_getD d
  · rw [length_revSwaps, length_revSwaps]
  · intro k hk
    have hkn : k < n := by
      rw [length_revSwaps, h1] at hk
      exact hk
    rw [getD_revSwaps n d _ h1 k hkn, getD_revSwaps n d l hl (n - k - 1) (by omega)]
    have : n - (n - k - 1) - 1 = k := by omega
    rw [this]

theorem invertPix_invertPix (maxv : Int) (p : Nat) (hp : p < 256) :
    invertPix maxv (invertPix maxv p) = p := by
  simp only [invertPix, show ∀ a b : Int, a.emod b = a % b from fun _ _ => rfl]
  have hp1 : (p : Int) % 256 = p :=
    Int.emod_eq_of_lt (by omega) (by exact_mod_cast hp)
  have hin : 0 ≤ (maxv % 256 - (p : Int)) % 256 :=
    Int.emod_nonneg _ (by norm_num)
  rw [Int.toNat_of_nonneg hin]
  have e1 : (maxv % 256 - (p : Int)) % 256 = (maxv - (p : Int)) % 256 := by
    conv_rhs => rw [Int.sub_emod]
    rw [hp1]
  have e2 : (maxv % 256 - (maxv - (p : Int)) % 256) % 256
      = (maxv - (maxv - (p : Int))) % 256 := by
    conv_rhs => rw [Int.sub_emod]
  have e3 : maxv - (maxv - (p : Int)) = (p : Int) := by ring
  rw [e1, e2, e3, hp1]
  omega

theorem rotate_width (g : PGM) : g.Rotate90CW.width = g.height := rfl

theorem rotate_height (g : PGM) : g.Rotate90CW.height = g.width := rfl

theorem rotate_magic (g : PGM) : g.Rotate90CW.magicNumber = g.magicNumber := rfl

theorem rotate_max (g : PGM) : g.Rotate90CW.max = g.max := rfl

theorem rotate_data_length (g : PGM) : g.Rotate90CW.data.length = g.width.toNat := by
  simp [PGM.Rotate90CW]

theorem rotate_row_length (g : PGM) :
    ∀ row ∈ g.Rotate90CW.data, row.length = g.height.toNat := by
  intro row hr
  simp only [PGM.Rotate90CW, List.mem_map] at hr
  obtain ⟨i, _, rfl⟩ := hr
  simp

theorem gridAt_rotate (g : PGM) (i j : Nat) (hi : i < g.width.toNat)
    (hj : j < g.height.toNat) :
    gridAt g.Rotate90CW.data 0 i j = gridAt g.data 0 (g.height.toNat - j - 1) i := by
  unfold PGM.Rotate90CW gridAt
  rw [getD_range_map _ _ _ _ hi, getD_range_map _ _ _ _ hj]

theorem gridAt_rotate4 (g : PGM) (i j : Nat) (hi : i < g.height.toNat)
    (hj : j < g.width.toNat) :
    gridAt g.Rotate90CW.Rotate90CW.Rotate90CW.Rotate90CW.data 0 i j =
      gridAt g.data 0 i j := by
  have e1 : gridAt g.Rotate90CW.Rotate90CW.Rotate90CW.Rotate90CW.data 0 i j
      = gridAt g.Rotate90CW.Rotate90CW.Rotate90CW.data 0 (g.width.toNat - j - 1) i :=
    gridAt_rotate g.Rotate90CW.Rotate90CW.Rotate90CW i j hi hj
  have e2 : gridAt g.Rotate90CW.Rotate90CW.Rotate90CW.data 0 (g.width.toNat - j - 1) i
      = gridAt g.Rotate90CW.Rotate90CW.data 0 (g.height.toNat - i - 1)
          (g.width.toNat - j - 1) :=
    gridAt_rotate g.Rotate90CW.Rotate90CW (g.width.toNat - j - 1) i
      ((by omega : g.width.toNat - j - 1 < g.width.toNat)) hi
  have e3 : gridAt g.Rotate90CW.Rotate90CW.data 0 (g.height.toNat - i - 1)
        (g.width.toNat - j - 1)
      = gridAt g.Rotate90CW.data 0 (g.width.toNat - (g.width.toNat - j - 1) - 1)
          (g.height.toNat - i - 1) :=
    gridAt_rotate g.Rotate90CW (g.height.toNat - i - 1) (g.width.toNat - j - 1)
      ((by omega : g.height.toNat - i - 1 < g.height.toNat))
      ((by omega : g.width.toNat - j - 1 < g.width.toNat))
  have hj2 : g.width.toNat - (g.width.toNat - j - 1) - 1 = j := by omega
  rw [hj2] at e3
  have e4 : gridAt g.Rotate90CW.data 0 j (g.height.toNat - i - 1)
      = gridAt g.data 0 (g.height.toNat - (g.height.toNat - i - 1) - 1) j :=
    gridAt_rotate g j (g.height.toNat - i - 1) hj
      ((by omega : g.height.toNat - i - 1 < g.height.toNat))
  have hi2 : g.height.toNat - (g.height.toNat - i - 1) - 1 = i := by omega
  rw [hi2] at e4
  rw [e1, e2, e3, e4]

theorem rotate4_eq (g : PGM) (hg : g.Wf) :
    g.Rotate90CW.Rotate90CW.Rotate90CW.Rotate90CW = g := by
  obtain ⟨d, w, h, m, mx⟩ := g
  simp only [PGM.Wf] at hg
  obtain ⟨hw, hh, hlen, hrow, hpix⟩ := hg
  have hl4 : (PGM.Rotate90CW (PGM.Rotate90CW (PGM.Rotate90CW (PGM.Rotate90CW
      ⟨d, w, h, m, mx⟩)))).data.length = h.toNat := by
    rw [rotate_data_length]
    rfl
  have hdata : (PGM.Rotate90CW (PGM.Rotate90CW (PGM.Rotate90CW (PGM.Rotate90CW
      ⟨d, w, h, m, mx⟩)))).data = d := by
    apply list_ext_getD ([] : List Nat)
    · rw [hl4, hlen]
    · intro i hi
      rw [hl4] at hi
      have hm4 : (PGM.Rotate90CW (PGM.Rotate90CW (PGM.Rotate90CW (PGM.Rotate90CW
          ⟨d, w, h, m, mx⟩)))).data.getD i [] ∈ (PGM.Rotate90CW (PGM.Rotate90CW
          (PGM.Rotate90CW (PGM.Rotate90CW ⟨d, w, h, m, mx⟩)))).data :=
        getD_mem _ i ([] : List Nat) (by rw [hl4]; exact hi)
      have hrow4 : ((PGM.Rotate90CW (PGM.Rotate90CW (PGM.Rotate90CW (PGM.Rotate90CW
          ⟨d, w, h, m, mx⟩)))).data.getD i []).length = w.toNat := by
        have hr := rotate_row_length (PGM.Rotate90CW (PGM.Rotate90CW (PGM.Rotate90CW
          ⟨d, w, h, m, mx⟩))) _ hm4
        rw [hr]
        rfl
      have hrowd : (d.getD i []).length = w.toNat :=
        hrow _ (getD_mem d i ([] : List Nat) (by rw [hlen]; exact hi))
      apply list_ext_getD (0 : Nat)
      · rw [hrow4, hrowd]
      · intro j hj
        rw [hrow4] at hj
        exact gridAt_rotate4 ⟨d, w, h, m, mx⟩ i j hi hj
  have heta : (PGM.Rotate90CW (PGM.Rotate90CW (PGM.Rotate90CW (PGM.Rotate90CW
      ⟨d, w, h, m, mx⟩)))) = ⟨(PGM.Rotate90CW (PGM.Rotate90CW (PGM.Rotate90CW
      (PGM.Rotate90CW ⟨d, w, h, m, mx⟩)))).data, w, h, m, mx⟩ := rfl
  rw [heta, hdata]

theorem take_succ_set {α : Type} (l : List α) (i : Nat) (a : α) (h : i < l.length) :
    (l.set i a).take (i + 1) = l.take i ++ [a] := by
  rw [List.set_eq_take_cons_drop a h]
  rw [show i + 1 = (l.take i).length + 1 from by rw [List.length_take]; omega]
  rw [List.take_append 1]
  simp

theorem drop_set_ge {α : Type} (l : List α) (i k : Nat) (a : α) (h : i < k) :
    (l.set i a).drop k = l.drop k := by
  rw [List.drop_set]
  simp [Nat.not_lt.mpr (Nat.le_of_lt h), h]

theorem p1Loop_eq (line : List Nat) : ∀ (i : Nat) (data : List Bool),
    i + line.length ≤ data.length →
    p1Loop line i data =
      some (data.take i ++ line.map (fun b => b == 49) ++ data.drop (i + line.length)) := by
  induction line with
  | nil =>
    intro i data _
    simp [p1Loop, List.take_append_drop]
  | cons b rest ih =>
    intro i data h
    simp only [List.length_cons] at h
    have hi : i < data.length := by omega
    simp only [p1Loop]
    rw [if_pos hi]
    rw [ih (i + 1) (data.set i (b == 49)) (by rw [List.length_set]; omega)]
    congr 1
    rw [take_succ_set data i _ hi]
    rw [drop_set_ge data i (i + 1 + rest.length) _ (by omega)]
    have hX : i + 1 + rest.length = i + (rest.length + 1) := by omega
    rw [hX]
    simp [List.append_assoc]

theorem parseP1Line_eq (line : List Nat) (w : Nat) (h : line.length ≤ w) :
    parseP1Line line (w : Int) =
      some (line.map (fun b => b == 49) ++ List.replicate (w - line.length) false) := by
  simp only [parseP1Line]
  rw [if_neg (by omega : ¬ (w : Int) < 0), Int.toNat_natCast]
  rw [p1Loop_eq line 0 (List.replicate w false) (by simp; omega)]
  simp [List.drop_replicate]

theorem range_map_getD {α : Type} (l : List α) (n : Nat) (d : α) (h : l.length = n) :
    (List.range n).map (fun i => l.getD i d) = l := by
  apply list_ext_getD d
  · simp [h]
  · intro k hk
    simp only [List.length_map, List.length_range] at hk
    rw [getD_range_map _ _ _ _ hk]

theorem range_flatMap_getD {α β : Type} (l : List α) (n : Nat) (d : α) (f : α → List β)
    (h : l.length = n) :
    (List.range n).flatMap (fun i => f (l.getD i d)) = l.flatMap f := by
  rw [List.flatMap_def, List.flatMap_def]
  rw [show ((List.range n).map fun i => f (l.getD i d))
      = ((List.range n).map fun i => l.getD i d).map f from by rw [List.map_map]; rfl]
  rw [range_map_getD l n d h]

theorem grid_flatMap_getD {β : Type} (d : List (List Nat)) (h w : Nat)
    (f : Nat → List β) (hlen : d.length = h) (hrow : ∀ row ∈ d, row.length = w) :
    (List.range h).flatMap (fun i =>
        (List.range w).flatMap (fun j => f (gridAt d 0 i j))) =
      d.flatMap (fun row => row.flatMap f) := by
  have hinner : ∀ i ∈ List.range h,
      (List.range w).flatMap (fun j => f (gridAt d 0 i j)) = (d.getD i []).flatMap f := by
    intro i hi
    rw [List.mem_range] at hi
    exact range_flatMap_getD (d.getD i []) w 0 f
      (hrow _ (getD_mem d i [] (by omega)))
  rw [List.flatMap_def, List.map_congr_left hinner]
  rw [show ((List.range h).map fun i => (d.getD i []).flatMap f)
      = ((List.range h).map fun i => d.getD i []).map (fun row => row.flatMap f) from by
    rw [List.map_map]; rfl]
  rw [range_map_getD d h [] hlen, ← List.flatMap_def]

theorem flatMap_singleton_map {α β : Type} (l : List α) (f : α → β) :
    (l.flatMap fun x => [f x]) = l.map f := by
  induction l with
  | nil => rfl
  | cons a l ih => simp [List.flatMap_cons, ih]

theorem invertPix_cast (maxv : Int) (p : Nat) :
    (invertPix maxv p : Int) = (maxv.emod 256 - (p : Int)).emod 256 := by
  simp only [invertPix]
  exact Int.toNat_of_nonneg (Int.emod_nonneg _ (by norm_num))

theorem gridAt_invert (g : PGM) (hg : g.Wf) (i j : Nat) (hi : i < g.height.toNat)
    (hj : j < g.width.toNat) :
    gridAt g.Invert.data 0 i j = invertPix g.max (gridAt g.data 0 i j) := by
  obtain ⟨hw, hh, hlen, hrow, hpix⟩ := hg
  have hrl : (g.data.getD i []).length = g.width.toNat :=
    hrow _ (getD_mem _ i [] (by omega))
  simp only [PGM.Invert, gridAt]
  rw [getD_setEach, if_pos ⟨hi, by omega⟩]
  show (setEach g.width.toNat 0 (fun _ p => invertPix g.max p) (g.data.getD i [])).getD j 0
      = invertPix g.max ((g.data.getD i []).getD j 0)
  rw [getD_setEach, if_pos ⟨hj, by omega⟩]

theorem gridAt_toPBM (g : PGM) (i j : Nat) (hi : i < g.height.toNat)
    (hj : j < g.width.toNat) :
    gridAt g.ToPBM.data false i j =
      decide (uint8OfInt g.max / 2 < gridAt g.data 0 i j) := by
  simp only [PGM.ToPBM, gridAt]
  rw [getD_range_map _ _ _ _ hi, getD_range_map _ _ _ _ hj]

theorem pbm_flip_flip (b : PBM) (hb : b.Wf) : b.Flip.Flip = b := by
  obtain ⟨d, w, h, m⟩ := b
  simp only [PBM.Wf] at hb
  obtain ⟨hw, hh, hlen, hrow⟩ := hb
  have hdata : (PBM.Flip (PBM.Flip ⟨d, w, h, m⟩)).data = d :=
    setEach_involutive h.toNat [] (fun row => revSwaps w.toNat false row) d hlen
      (fun row hr => revSwaps_revSwaps w.toNat false row (hrow row hr))
  have heta : PBM.Flip (PBM.Flip ⟨d, w, h, m⟩)
      = ⟨(PBM.Flip (PBM.Flip ⟨d, w, h, m⟩)).data, w, h, m⟩ := rfl
  rw [heta, hdata]

theorem pbm_flop_flop (b : PBM) (hb : b.Wf) : b.Flop.Flop = b := by
  obtain ⟨d, w, h, m⟩ := b
  simp only [PBM.Wf] at hb
  obtain ⟨hw, hh, hlen, hrow⟩ := hb
  have hdata : (PBM.Flop (PBM.Flop ⟨d, w, h, m⟩)).data = d :=
    revSwaps_revSwaps h.toNat [] d hlen
  have heta : PBM.Flop (PBM.Flop ⟨d, w, h, m⟩)
      = ⟨(PBM.Flop (PBM.Flop ⟨d, w, h, m⟩)).data, w, h, m⟩ := rfl
  rw [heta, hdata]

theorem pbm_invert_invert (b : PBM) (hb : b.Wf) : b.Invert.Invert = b := by
  obtain ⟨d, w, h, m⟩ := b
  simp only [PBM.Wf] at hb
  obtain ⟨hw, hh, hlen, hrow⟩ := hb
  have hdata : (PBM.Invert (PBM.Invert ⟨d, w, h, m⟩)).data = d :=
    setEach_involutive h.toNat []
      (fun row => setEach w.toNat false (fun _ p => !p) row) d hlen
      (fun row hr => setEach_involutive w.toNat false (fun p => !p) row (hrow row hr)
        (fun a _ => Bool.not_not a))
  have heta : PBM.Invert (PBM.Invert ⟨d, w, h, m⟩)
      = ⟨(PBM.Invert (PBM.Invert ⟨d, w, h, m⟩)).data, w, h, m⟩ := rfl
  rw [heta, hdata]

theorem pgm_flip_flip (g : PGM) (hg : g.Wf) : g.Flip.Flip = g := by
  obtain ⟨d, w, h, m, mx⟩ := g
  simp only [PGM.Wf] at hg
  obtain ⟨hw, hh, hlen, hrow, hpix⟩ := hg
  have hdata : (PGM.Flip (PGM.Flip ⟨d, w, h, m, mx⟩)).data = d :=
    setEach_involutive h.toNat [] (fun row => revSwaps w.toNat 0 row) d hlen
      (fun row hr => revSwaps_revSwaps w.toNat 0 row (hrow row hr))
  have heta : PGM.Flip (PGM.Flip ⟨d, w, h, m, mx⟩)
      = ⟨(PGM.Flip (PGM.Flip ⟨d, w, h, m, mx⟩)).data, w, h, m, mx⟩ := rfl
  rw [heta, hdata]

theorem pgm_flop_flop (g : PGM) (hg : g.Wf) : g.Flop.Flop = g := by
  obtain ⟨d, w, h, m, mx⟩ := g
  simp only [PGM.Wf] at hg
  obtain ⟨hw, hh, hlen, hrow, hpix⟩ := hg
  have hdata : (PGM.Flop (PGM.Flop ⟨d, w, h, m, mx⟩)).data = d :=
    revSwaps_revSwaps h.toNat [] d hlen
  have heta : PGM.Flop (PGM.Flop ⟨d, w, h, m, mx⟩)
      = ⟨(PGM.Flop (PGM.Flop ⟨d, w, h, m, mx⟩)).data, w, h, m, mx⟩ := rfl
  rw [heta, hdata]

theorem pgm_invert_invert (g : PGM) (hg : g.Wf) : g.Invert.Invert = g := by
  obtain ⟨d, w, h, m, mx⟩ := g
  simp only [PGM.Wf] at hg
  obtain ⟨hw, hh, hlen, hrow, hpix⟩ := hg
  have hdata : (PGM.Invert (PGM.Invert ⟨d, w, h, m, mx⟩)).data = d :=
    setEach_involutive h.toNat []
      (fun row => setEach w.toNat 0 (fun _ p => invertPix mx p) row) d hlen
      (fun row hr => setEach_involutive w.toNat 0 (fun p => invertPix mx p) row
        (hrow row hr) (fun p hp => invertPix_invertPix mx p (hpix row hr p hp)))
  have heta : PGM.Invert (PGM.Invert ⟨d, w, h, m, mx⟩)
      = ⟨(PGM.Invert (PGM.Invert ⟨d, w, h, m, mx⟩)).data, w, h, m, mx⟩ := rfl
  rw [heta, hdata]

/-- Claim C1 counterexample: saving the 1×1 grayscale image with magic
number `"P5"`, pixel 200 and max value 255 does not write the single raw
byte `200` after the three header lines — the code has no binary branch and
writes the ASCII token `"200"` plus a newline instead. -/
theorem claim_C1_cex :
    ¬ PGM.Save ⟨[[200]], 1, 1, bP5, 255⟩ = bytesOf ("P5\n1 1\n255\n") ++ [200] := by
  decide

/-- Claim C1 (amended): for every well-formed grayscale image — whatever
its magic number, `"P5"` included — `Save` writes the three header lines
and then one decimal ASCII token per pixel, each followed by a newline
byte, in row-major order; there is no raw-byte binary encoding branch. -/
theorem claim_C1 (g : PGM) (hg : g.Wf) :
    g.Save = g.magicNumber ++ 10 :: intBytes g.width ++ 32 :: intBytes g.height ++ 10 ::
      intBytes g.max ++ 10 ::
      g.data.flatMap (fun row => row.flatMap (fun p => natBytes p ++ [10])) := by
  obtain ⟨hw, hh, hlen, hrow, hpix⟩ := hg
  simp only [PGM.Save]
  rw [grid_flatMap_getD g.data g.height.toNat g.width.toNat
    (fun p => natBytes p ++ [10]) hlen hrow]

theorem claim_C1_witness :
    PGM.Save ⟨[[200]], 1, 1, bP5, 255⟩ =
      bP5 ++ 10 :: intBytes 1 ++ 32 :: intBytes 1 ++ 10 :: intBytes 255 ++ 10 ::
      ([[200]] : List (List Nat)).flatMap
        (fun row => row.flatMap (fun p => natBytes p ++ [10])) :=
  claim_C1 ⟨[[200]], 1, 1, bP5, 255⟩ (by decide)

/-- Claim C2 counterexample: decoding the stream `"P1\n2 2\n1 0\n0 1\n"`
does not succeed — the `P1` decoder indexes the row by character position,
so the three-character line `"1 0"` overruns the width-2 row and panics. -/
theorem claim_C2_cex :
    ReadPBM (bytesOf ("P1\n2 2\n1 0\n0 1\n")) = GoResult.crash := by decide

/-- Claim C2 (amended): ASCII decoding is line-based, not
whitespace-token-based.  The `P1` decoder maps byte `i` of each row line
to column `i` (`'1'` → true, anything else → false, missing trailing
bytes → false) and panics when a line has more bytes than the width; the
`P2` decoder consumes one whole line per pixel, so `"P1\n2 2\n10\n01\n"`
(not `"P1\n2 2\n1 0\n0 1\n"`) yields `[[true,false],[false,true]]`, and
the space-separated grayscale stream `"P2\n2 2\n255\n1 2\n3 4\n"` decodes
to all-zero pixels. -/
theorem claim_C2 :
    (∀ (line : List Nat) (w : Nat), line.length ≤ w →
      parseP1Line line (w : Int) =
        some (line.map (fun b => b == 49) ++ List.replicate (w - line.length) false)) ∧
    ReadPBM (bytesOf ("P1\n2 2\n10\n01\n")) =
      .ok ⟨[[true, false], [false, true]], 2, 2, bP1⟩ ∧
    ReadPGM (bytesOf ("P2\n2 2\n255\n1 2\n3 4\n")) =
      .ok ⟨[[0, 0], [0, 0]], 2, 2, bP2, 255⟩ :=
  ⟨fun line w h => parseP1Line_eq line w h, by decide, by decide⟩

theorem claim_C2_witness :
    parseP1Line [49, 48] 3 = some [true, false, false] :=
  claim_C2.1 [49, 48] 3 (by decide)

/-- Claim C3 counterexample: a 2×2 grayscale stream with only three pixel
tokens decodes successfully — the missing pixel reads as 0; no
`TruncatedData` error is ever produced. -/
theorem claim_C3_cex :
    ReadPGM (bytesOf ("P2\n2 2\n255\n1\n2\n3\n")) =
      .ok ⟨[[1, 2], [3, 0]], 2, 2, bP2, 255⟩ := by decide

/-- Claim C3 (amended): decoding never reports a truncation error.
`ReadPGM` succeeds for any pixel data whatsoever once the header lines are
acceptable (missing pixels read as 0), and `ReadPBM` likewise fills
missing `P1` rows with false; a stream with exactly `height × width`
pixels also succeeds. -/
theorem claim_C3 :
    (∀ input : List Nat,
      (lineAt (splitLines input) 0 = bP2 ∨ lineAt (splitLines input) 0 = bP5) →
      2 ≤ (fields (lineAt (splitLines input) 1)).length →
      0 ≤ (atoi ((fields (lineAt (splitLines input) 1)).getD 0 [])).getD 0 →
      0 ≤ (atoi ((fields (lineAt (splitLines input) 1)).getD 1 [])).getD 0 →
      (ReadPGM input).isOk = true) ∧
    ReadPGM (bytesOf ("P2\n2 2\n255\n1\n2\n3\n4\n")) =
      .ok ⟨[[1, 2], [3, 4]], 2, 2, bP2, 255⟩ ∧
    ReadPBM (bytesOf ("P1\n2 2\n10\n")) =
      .ok ⟨[[true, false], [false, false]], 2, 2, bP1⟩ := by
  refine ⟨?_, by decide, by decide⟩
  intro input hmagic hdims hw hh
  simp only [ReadPGM]
  rw [if_neg (by rcases hmagic with h | h <;> simp [h])]
  rw [if_neg (by omega)]
  rw [if_neg (by omega)]
  rw [if_neg (by omega)]
  rfl

theorem claim_C3_witness :
    (ReadPGM (bytesOf ("P5\n3 3\n255\n"))).isOk = true :=
  claim_C3.1 (bytesOf ("P5\n3 3\n255\n")) (by decide) (by decide) (by decide) (by decide)

/-- Claim C4 counterexample: `ReadPGM` on a dimensions line whose tokens
`"abc"`/`"def"` fail to parse does not fail with any error — the parse
errors are discarded and the dimensions silently become 0. -/
theorem claim_C4_cex :
    ReadPGM (bytesOf ("P2\nabc def\n255\n")) =
      .ok ⟨[], 0, 0, bP2, 255⟩ := by decide

/-- Claim C4 (amended): only `ReadPBM` validates the dimensions line — it
fails with an error when the line does not split into exactly two tokens
or a token fails to parse as an integer, but it accepts zero and negative
integers (no positivity check; a negative width instead panics later at
row allocation).  `ReadPGM` performs no validation at all: it panics when
fewer than two tokens are present and treats unparseable tokens as 0. -/
theorem claim_C4 :
    (∀ input : List Nat,
      (lineAt (splitLines input) 0 = bP1 ∨ lineAt (splitLines input) 0 = bP4) →
      (fields (lineAt (splitLines input) 1)).length ≠ 2 →
      ReadPBM input = .err errDims) ∧
    (∀ input : List Nat,
      (lineAt (splitLines input) 0 = bP1 ∨ lineAt (splitLines input) 0 = bP4) →
      (fields (lineAt (splitLines input) 1)).length = 2 →
      atoi ((fields (lineAt (splitLines input) 1)).getD 0 []) = none →
      ReadPBM input = .err errWidth) ∧
    ReadPBM (bytesOf ("P1\n0 0\n")) = .ok ⟨[], 0, 0, bP1⟩ ∧
    ReadPBM (bytesOf ("P1\n-1 2\n")) = .crash ∧
    ReadPGM (bytesOf ("P2\n5\n255\n")) = .crash := by
  refine ⟨?_, ?_, by decide, by decide, by decide⟩
  · intro input hmagic hdims
    simp only [ReadPBM]
    rw [if_neg (by rcases hmagic with h | h <;> simp [h])]
    rw [if_pos hdims]
  · intro input hmagic hdims hatoi
    simp only [ReadPBM]
    rw [if_neg (by rcases hmagic with h | h <;> simp [h])]
    rw [if_neg (by simp [hdims])]
    rw [hatoi]

theorem claim_C4_witness :
    ReadPBM (bytesOf ("P1\n1 2 3\n")) = .err errDims :=
  claim_C4.1 (bytesOf ("P1\n1 2 3\n")) (by decide) (by decide)

/-- Claim C5: for a width-`w` source row of at least `ceil(w/8)` bytes the
`P4` decoder maps bit `i` of the packed row (most-significant bit of each
byte first) to pixel column `i`, ignoring the padding bits beyond the
width; a shorter row yields the empty (nil) row; byte `0b10110000` at
width 8 decodes to `[true,false,true,true,false,false,false,false]`. -/
theorem claim_C5 (w : Nat) (line : List Nat) :
    ((w + 7) / 8 ≤ line.length →
      parseP4Line line (w : Int) =
        some ((List.range w).map (fun i => (line.getD (i / 8) 0).testBit (7 - i % 8)))) ∧
    (line.length < (w + 7) / 8 → parseP4Line line (w : Int) = some []) ∧
    parseP4Line [176] 8 = some [true, false, true, true, false, false, false, false] := by
  refine ⟨?_, ?_, by decide⟩
  · intro h
    simp only [parseP4Line]
    rw [if_neg (by omega : ¬ (w : Int) < 0), Int.toNat_natCast]
    rw [if_neg (by omega : ¬ line.length < (w + 7) / 8)]
    congr 1
    apply List.map_congr_left
    intro i _
    rw [Nat.and_one_is_mod, Nat.shiftRight_eq_div_pow, Nat.testBit_to_div_mod]
    cases hb : line.getD (i / 8) 0 / 2 ^ (7 - i % 8) % 2 == 1 <;> simp_all
  · intro h
    simp only [parseP4Line]
    rw [if_neg (by omega : ¬ (w : Int) < 0), Int.toNat_natCast, if_pos h]

theorem claim_C5_witness :
    parseP4Line [176, 0] 9 =
      some ((List.range 9).map (fun i =>
        (([176, 0] : List Nat).getD (i / 8) 0).testBit (7 - i % 8))) ∧
    parseP4Line [176] 9 = some [] :=
  ⟨(claim_C5 9 [176, 0]).1 (by decide), (claim_C5 9 [176]).2.1 (by decide)⟩

/-- Claim C6 counterexample: saving the 1×1 `P4` bitmap with one true pixel
does not write exactly one raw byte after the header — a newline byte is
appended after the row, so two bytes follow the header. -/
theorem claim_C6_cex :
    ¬ PBM.Save ⟨[[true]], 1, 1, bP4⟩ = bytesOf ("P4\n1 1\n") ++ [255] := by decide

/-- Claim C6 (amended): for every bitmap whose magic number is `"P4"`,
`Save` writes, after the header, each row as one raw byte per pixel —
`0xFF` for true and `0x00` for false, not bit-packed — followed by one
newline byte per row. -/
theorem claim_C6 (b : PBM) (hmagic : b.magicNumber = bP4) :
    b.Save = b.magicNumber ++ 10 :: intBytes b.width ++ 32 :: intBytes b.height ++ 10 ::
      b.data.flatMap (fun row =>
        row.map (fun pixel => if pixel then 255 else 0) ++ [10]) := by
  have hne : ¬ (bP4 = bP1) := by decide
  have hpix : ∀ row : List Bool,
      (row.flatMap fun pixel => if pixel then ([255] : List Nat) else [0])
        = row.map (fun pixel => if pixel then 255 else 0) := by
    intro row
    induction row with
    | nil => rfl
    | cons p rest ih => cases p <;> simp [List.flatMap_cons, ih]
  simp only [PBM.Save, hmagic, if_neg hne, hpix]

theorem claim_C6_witness :
    PBM.Save ⟨[[true, false]], 2, 1, bP4⟩ =
      bP4 ++ 10 :: intBytes 2 ++ 32 :: intBytes 1 ++ 10 ::
      ([[true, false]] : List (List Bool)).flatMap
        (fun row => row.map (fun pixel => if pixel then 255 else 0) ++ [10]) :=
  claim_C6 ⟨[[true, false]], 2, 1, bP4⟩ rfl

/-- Claim C7: `ToPBM` keeps the dimensions, fixes the magic number to
`"P1"` whatever the source encoding was, and sets pixel `(x, y)` to true
exactly when the source pixel exceeds `maxValue / 2` (integer division),
for any well-formed source with `maxValue` in `[0, 255]`. -/
theorem claim_C7 (g : PGM) (_hg : g.Wf) (hm0 : 0 ≤ g.max) (hm1 : g.max ≤ 255) :
    g.ToPBM.width = g.width ∧ g.ToPBM.height = g.height ∧
    g.ToPBM.magicNumber = bP1 ∧
    ∀ x y, x < g.width.toNat → y < g.height.toNat →
      (g.ToPBM.At x y = true ↔ g.max.toNat / 2 < g.At x y) := by
  refine ⟨rfl, rfl, rfl, ?_⟩
  intro x y hx hy
  have hAt : g.ToPBM.At x y = decide (uint8OfInt g.max / 2 < g.At x y) :=
    gridAt_toPBM g y x hy hx
  have hu8 : uint8OfInt g.max = g.max.toNat := by
    simp only [uint8OfInt]
    have hmod : g.max.emod 256 = g.max :=
      Int.emod_eq_of_lt hm0 (by omega : g.max < 256)
    rw [hmod]
  rw [hAt, hu8]
  simp

theorem claim_C7_witness :
    ((PGM.ToPBM ⟨[[100, 128], [127, 0]], 2, 2, bP5, 255⟩).At 1 0 = true ↔
      (255 : Int).toNat / 2 < PGM.At ⟨[[100, 128], [127, 0]], 2, 2, bP5, 255⟩ 1 0) :=
  (claim_C7 ⟨[[100, 128], [127, 0]], 2, 2, bP5, 255⟩ (by decide) (by decide)
    (by decide)).2.2.2 1 0 (by decide) (by decide)

/-- Claim C8: on a well-formed grayscale image, `Rotate90CW` produces a
grid of `width` rows by `height` columns with output pixel `(i, j)` equal
to input pixel `(height-j-1, i)`, swaps the stored width and height, and
applying it four times restores the original image. -/
theorem claim_C8 (g : PGM) (hg : g.Wf) :
    g.Rotate90CW.width = g.height ∧ g.Rotate90CW.height = g.width ∧
    g.Rotate90CW.data.length = g.width.toNat ∧
    (∀ row ∈ g.Rotate90CW.data, row.length = g.height.toNat) ∧
    (∀ i j, i < g.width.toNat → j < g.height.toNat →
      gridAt g.Rotate90CW.data 0 i j = gridAt g.data 0 (g.height.toNat - j - 1) i) ∧
    g.Rotate90CW.Rotate90CW.Rotate90CW.Rotate90CW = g :=
  ⟨rotate_width g, rotate_height g, rotate_data_length g, rotate_row_length g,
   fun i j hi hj => gridAt_rotate g i j hi hj, rotate4_eq g hg⟩

theorem claim_C8_witness :
    PGM.Rotate90CW (PGM.Rotate90CW (PGM.Rotate90CW (PGM.Rotate90CW
      (⟨[[1, 2, 3], [4, 5, 6]], 3, 2, bP2, 255⟩ : PGM)))) =
      ⟨[[1, 2, 3], [4, 5, 6]], 3, 2, bP2, 255⟩ :=
  (claim_C8 ⟨[[1, 2, 3], [4, 5, 6]], 3, 2, bP2, 255⟩ (by decide)).2.2.2.2.2

/-- Claim C9: on well-formed images, `Flip` and `Flop` are involutions for
both bitmaps and grayscale images, and grayscale `Invert` is an involution
(its `maxValue` is untouched between the two calls). -/
theorem claim_C9 :
    (∀ b : PBM, b.Wf → b.Flip.Flip = b ∧ b.Flop.Flop = b) ∧
    (∀ g : PGM, g.Wf → g.Flip.Flip = g ∧ g.Flop.Flop = g ∧ g.Invert.Invert = g) :=
  ⟨fun b hb => ⟨pbm_flip_flip b hb, pbm_flop_flop b hb⟩,
   fun g hg => ⟨pgm_flip_flip g hg, pgm_flop_flop g hg, pgm_invert_invert g hg⟩⟩

theorem claim_C9_witness :
    PBM.Flip (PBM.Flip ⟨[[true, false, true]], 3, 1, bP1⟩) =
      ⟨[[true, false, true]], 3, 1, bP1⟩ ∧
    PGM.Invert (PGM.Invert ⟨[[10, 20], [30, 40]], 2, 2, bP2, 255⟩) =
      ⟨[[10, 20], [30, 40]], 2, 2, bP2, 255⟩ :=
  ⟨(claim_C9.1 ⟨[[true, false, true]], 3, 1, bP1⟩ (by decide)).1,
   (claim_C9.2 ⟨[[10, 20], [30, 40]], 2, 2, bP2, 255⟩ (by decide)).2.2⟩

/-- Claim C10: grayscale `Invert` sends each pixel `p` — any `uint8` value,
including values above `maxValue` — to `(maxValue mod 256 - p) mod 256` in
8-bit wraparound arithmetic with no clamping to `[0, maxValue]` (e.g. with
`maxValue = 100` the pixel 200 becomes 156 > 100), and this map is an
involution on all of `[0, 256)`. -/
theorem claim_C10 :
    (∀ g : PGM, g.Wf → ∀ i j, i < g.height.toNat → j < g.width.toNat →
      ((gridAt g.Invert.data 0 i j : Nat) : Int) =
        (g.max.emod 256 - ((gridAt g.data 0 i j : Nat) : Int)).emod 256) ∧
    (∀ maxv : Int, ∀ p : Nat, p < 256 →
      invertPix maxv (invertPix maxv p) = p) ∧
    invertPix 100 200 = 156 := by
  refine ⟨?_, fun maxv p hp => invertPix_invertPix maxv p hp, by decide⟩
  intro g hg i j hi hj
  rw [gridAt_invert g hg i j hi hj, invertPix_cast]

theorem claim_C10_witness :
    invertPix 25 (invertPix 25 200) = 200 :=
  claim_C10.2.1 25 200 (by decide)
